import Mathlib

/-!
Shallow embedding of the middleware chain and relay dispatcher of
`server.py` (an MCP→OpenAI relay server), together with proofs of the
spec's claims about it.

Header values are modelled as `List Char` (Python `str` is a sequence of
code points); the Python string primitives used by the code
(`str.split(",")`, `str.strip()`, `str.lower()`, `", ".join`) are embedded
as recursive functions on `List Char`.
-/

namespace MCPRelay

/-! ## Python string primitives on `List Char` -/

/-- Python `str.split(",")`: split on every comma, keeping empty pieces;
`"".split(",") == [""]`. -/
def splitOnComma : List Char → List (List Char)
  | [] => [[]]
  | c :: rest =>
    match splitOnComma rest with
    | [] => [[c]]
    | piece :: pieces =>
      if c = ',' then [] :: piece :: pieces else (c :: piece) :: pieces

/-- Python `str.strip()`: drop leading and trailing whitespace. -/
def trimChars (l : List Char) : List Char :=
  ((l.dropWhile Char.isWhitespace).reverse.dropWhile Char.isWhitespace).reverse

/-- Python `str.lower()` (ASCII case folding, which is all the header
comparison in the code relies on). -/
def lowerChars (l : List Char) : List Char :=
  l.map Char.toLower

/-- Python `", ".join(values)`. -/
def joinCommaSpace : List (List Char) → List Char
  | [] => []
  | [v] => v
  | v :: rest => v ++ ',' :: ' ' :: joinCommaSpace rest

/-! ## ForceAcceptHeaderMiddleware (server.py lines 74-96) -/

/-- The media types the middleware forces into the Accept header. -/
def requiredJson : List Char := "application/json".data

def requiredStream : List Char := "text/event-stream".data

/-- `[value.strip() for value in accept_header.split(",") if value.strip()]`
(server.py line 81). -/
def parseAccept (accept : List Char) : List (List Char) :=
  ((splitOnComma accept).map trimChars).filter (fun v => v ≠ [])

/-- The header rewrite of `ForceAcceptHeaderMiddleware.dispatch`
(server.py lines 80-93): parse the Accept header, test membership of the
two required media types against the lower-cased entries, append whichever
is missing (JSON first, then event-stream, as in the code), and rewrite
the header with `", ".join` only when something was appended; otherwise
the header value is returned untouched. -/
def normalizeAccept (accept : List Char) : List Char :=
  if requiredJson ∈ (parseAccept accept).map lowerChars
      ∧ requiredStream ∈ (parseAccept accept).map lowerChars then
    accept
  else
    joinCommaSpace
      (parseAccept accept
        ++ (if requiredJson ∈ (parseAccept accept).map lowerChars then []
            else [requiredJson])
        ++ (if requiredStream ∈ (parseAccept accept).map lowerChars then []
            else [requiredStream]))

/-- An inbound HTTP request as the middleware sees it: the ASGI scope type,
the URL path, the Accept header value, and the rest of the request
(method, body, other headers), which the middleware never touches. -/
structure HttpRequest where
  isHttp : Bool
  path : String
  accept : List Char
  otherHeaders : List (String × List Char)
  deriving DecidableEq, Repr

/-- `ForceAcceptHeaderMiddleware.dispatch` (server.py lines 77-96): only a
request whose scope type is `"http"` and whose path is `"/mcp"` has its
Accept header normalized; every other request, and every other field of
the request, passes through unchanged. -/
def ForceAcceptHeaderMiddleware.dispatch (req : HttpRequest) : HttpRequest :=
  if req.isHttp = true ∧ req.path = "/mcp" then
    { req with accept := normalizeAccept req.accept }
  else
    req

/-! ## CredentialVerifier (server.py lines 52-63)

The code stores `MCP_API_KEY_HASH = sha256(MCP_API_KEY).hexdigest()` and
compares `sha256(provided_key).hexdigest()` against it with
`secrets.compare_digest`, which on equal-length hex strings is equality.
The digest `sha256(·).hexdigest()` is embedded as an abstract function
`h`; collision-freeness of the digest is an explicit hypothesis where a
theorem needs it. -/

/-- `verify_api_key` (server.py lines 58-63): an empty (falsy) candidate
is rejected before any digest is computed; otherwise the candidate's
digest is compared for equality against the stored digest of the
configured secret. -/
def verify_api_key (h : List Char → List Char) (secret provided_key : List Char) : Bool :=
  if provided_key = [] then false
  else decide (h provided_key = h secret)

/-! ## AuthMiddleware (server.py lines 116-146) -/

inductive AuthDecision where
  | allow
  | reject401
  deriving DecidableEq, Repr

/-- The fields of an inbound request that `AuthMiddleware.dispatch` can
see. Starlette's `request.headers` is case-insensitive, so the two
lookups `headers.get("authorization") or headers.get("Authorization")`
(and likewise for the API-key header) are a single optional value here.
The raw query string is carried along to show it is never consulted. -/
structure AuthRequest where
  isHttp : Bool
  path : String
  authorization : Option (List Char)
  xApiKey : Option (List Char)
  queryString : List Char
  deriving DecidableEq, Repr

def bearerScheme : List Char := "Bearer ".data

/-- `auth_header and auth_header.startswith("Bearer ") and
verify_api_key(auth_header[7:])` (server.py lines 132-134): the bearer
carrier admits only when the header is non-empty (truthy), begins with
the exact scheme text, and the remainder after the 7-character prefix
verifies. -/
def AuthMiddleware.bearerAllows (h : List Char → List Char) (secret : List Char)
    (auth : Option (List Char)) : Bool :=
  match auth with
  | none => false
  | some a =>
    (a != []) && bearerScheme.isPrefixOf a && verify_api_key h secret (a.drop 7)

/-- `api_key and verify_api_key(api_key)` for the API-key header
(server.py lines 138-139). -/
def AuthMiddleware.apiKeyAllows (h : List Char → List Char) (secret : List Char)
    (key : Option (List Char)) : Bool :=
  match key with
  | none => false
  | some k => (k != []) && verify_api_key h secret k

/-- `AuthMiddleware.dispatch` (server.py lines 119-146): non-HTTP scopes
and the operational paths pass through; paths other than the two MCP
endpoints pass through; otherwise the bearer carrier is tried, then the
API-key header, and the request is rejected with 401 if neither admits.
The query string is never read. -/
def AuthMiddleware.dispatch (h : List Char → List Char) (secret : List Char)
    (req : AuthRequest) : AuthDecision :=
  if req.isHttp = false then .allow
  else if req.path = "/health" ∨ req.path = "/" then .allow
  else if ¬(req.path = "/mcp" ∨ req.path = "/sse") then .allow
  else if AuthMiddleware.bearerAllows h secret req.authorization then .allow
  else if AuthMiddleware.apiKeyAllows h secret req.xApiKey then .allow
  else .reject401

/-! ## ErrorHandlingMiddleware (server.py lines 99-113) -/

inductive LogLevel where
  | info
  | error
  deriving DecidableEq, Repr

/-- A response body: plaintext, or the structured JSON object
`content = error-marker plus detail` built at server.py lines 110-113. -/
inductive RespBody where
  | text (s : List Char)
  | jsonError (error detail : List Char)
  deriving DecidableEq, Repr

structure HttpResponse where
  status : Nat
  body : RespBody
  deriving DecidableEq, Repr

/-- What `await call_next(request)` can do, as seen from the
`try`/`except` of `ErrorHandlingMiddleware.dispatch`: return a response,
raise `anyio.ClosedResourceError`, or raise any other exception with a
message. The `except` clauses are ordered, so a `ClosedResourceError` is
always matched by the first clause. -/
inductive InnerOutcome where
  | ok (resp : HttpResponse)
  | closedResourceError
  | exc (msg : List Char)
  deriving DecidableEq, Repr

/-- `ErrorHandlingMiddleware.dispatch` (server.py lines 102-113), as a
total function from the inner chain's outcome to a response paired with
the log level emitted: totality is the embedding of "no exception
propagates past the translator". -/
def ErrorHandlingMiddleware.dispatch : InnerOutcome → HttpResponse × Option LogLevel
  | .ok resp => (resp, none)
  | .closedResourceError =>
    ({ status := 499, body := .text "Client disconnected".data }, some .info)
  | .exc msg =>
    ({ status := 500, body := .jsonError "Internal server error".data msg }, some .error)

/-! ## The generate tool (server.py lines 164-232) -/

/-- One element of `resp.choices`: `choice.message.content` and
`choice.finish_reason`, each possibly absent. -/
structure Choice where
  content : Option (List Char)
  finish_reason : Option (List Char)
  deriving DecidableEq, Repr

/-- The outcome of `await client.chat.completions.create(...)`: a
response carrying a list of choices, or a raised provider-side fault
with its message. -/
inductive ProviderResult where
  | ok (choices : List Choice)
  | fault (msg : List Char)
  deriving DecidableEq, Repr

/-- The dictionary `generate` returns. Success responses carry no
`error` key, embedded as `error := false`. -/
structure GenerationResult where
  text : List Char
  model : List Char
  finish_reason : List Char
  error : Bool
  deriving DecidableEq, Repr

/-- The `except` block of `generate` (server.py lines 219-232):
`text = f"Error: {str(e)}"`, the requested model echoed, finish reason
`"error"`, `error = True`. -/
def errorResult (model msg : List Char) : GenerationResult :=
  { text := "Error: ".data ++ msg
    model := model
    finish_reason := "error".data
    error := true }

/-- Python `x or default` on an optional string: `None` and `""` are
falsy. -/
def pyOr (o : Option (List Char)) (d : List Char) : List Char :=
  match o with
  | none => d
  | some s => if s = [] then d else s

/-- `max_tokens is not None and max_tokens <= 0` (server.py line 195). -/
def badMaxTokens : Option Int → Bool
  | some n => decide (n ≤ 0)
  | none => false

/-- `generate` (server.py lines 184-232). The whole body runs inside
`try`, so every raise — the three validation `ValueError`s, a fault from
the provider call, and the `RuntimeError` for an empty choice list — is
converted by the `except` block into an `errorResult`; the embedding is a
total function, which is the claim that `generate` never raises past its
boundary. `prompt.strip()` is `trimChars`, `(choice.message.content or
"").strip()` is `trimChars (pyOr ...)`, `choice.finish_reason or "stop"`
is `pyOr`. The sampling temperature is embedded as a rational. -/
def generate (prompt model : List Char) (temperature : ℚ) (max_tokens : Option Int)
    (provider : ProviderResult) : GenerationResult :=
  if trimChars prompt = [] then
    errorResult model "Prompt cannot be empty".data
  else if temperature < 0 ∨ 2 < temperature then
    errorResult model "Temperature must be between 0 and 2".data
  else if badMaxTokens max_tokens then
    errorResult model "max_tokens must be positive".data
  else
    match provider with
    | .fault msg => errorResult model msg
    | .ok [] => errorResult model "No response choices returned from OpenAI".data
    | .ok (choice :: _) =>
      { text := trimChars (pyOr choice.content [])
        model := model
        finish_reason := pyOr choice.finish_reason "stop".data
        error := false }

/-! ## Lemmas about the embedded string primitives -/

theorem splitOnComma_cons (c : Char) (rest : List Char) {q : List Char}
    {qs : List (List Char)} (hr : splitOnComma rest = q :: qs) :
    splitOnComma (c :: rest) = if c = ',' then [] :: q :: qs else (c :: q) :: qs := by
  simp only [splitOnComma, hr]

theorem splitOnComma_ne_nil (l : List Char) : splitOnComma l ≠ [] := by
  induction l with
  | nil => simp [splitOnComma]
  | cons c rest ih =>
    obtain ⟨q, qs, hr⟩ := List.exists_cons_of_ne_nil ih
    rw [splitOnComma_cons c rest hr]
    split <;> simp

theorem not_comma_mem_splitOnComma {l p : List Char} (hp : p ∈ splitOnComma l) :
    ',' ∉ p := by
  induction l generalizing p with
  | nil =>
    simp only [splitOnComma, List.mem_singleton] at hp
    simp [hp]
  | cons c rest ih =>
    obtain ⟨q, qs, hr⟩ := List.exists_cons_of_ne_nil (splitOnComma_ne_nil rest)
    rw [splitOnComma_cons c rest hr] at hp
    have hq : q ∈ splitOnComma rest := by rw [hr]; exact List.mem_cons_self q qs
    by_cases hc : c = ','
    · rw [if_pos hc] at hp
      rcases List.mem_cons.mp hp with h | h
      · simp [h]
      · exact ih (by rw [hr]; exact h)
    · rw [if_neg hc] at hp
      rcases List.mem_cons.mp hp with h | h
      · subst h
        intro hmem
        rcases List.mem_cons.mp hmem with h' | h'
        · exact hc h'.symm
        · exact ih hq h'
      · exact ih (by rw [hr]; exact List.mem_cons_of_mem q h)

theorem dropWhile_self {α : Type} (p : α → Bool) (l : List α) :
    (l.dropWhile p).dropWhile p = l.dropWhile p := by
  induction l with
  | nil => rfl
  | cons c rest ih =>
    by_cases h : p c
    · simp [List.dropWhile_cons, h, ih]
    · simp [List.dropWhile_cons, h]

theorem dropWhile_reverse_of_fixed {α : Type} {p : α → Bool} {l : List α}
    (hl : l.dropWhile p = l) :
    ((l.reverse.dropWhile p).reverse).dropWhile p = (l.reverse.dropWhile p).reverse := by
  cases l with
  | nil => simp
  | cons c rest =>
    have hc : ¬ p c = true := by
      intro hcc
      rw [List.dropWhile_cons_of_pos hcc] at hl
      have h2 : (rest.dropWhile p).length ≤ rest.length :=
        (List.dropWhile_sublist p).length_le
      have h3 := congrArg List.length hl
      simp only [List.length_cons] at h3
      omega
    rw [List.reverse_cons, List.dropWhile_append]
    by_cases he : (rest.reverse.dropWhile p).isEmpty
    · rw [if_pos he]
      simp [List.dropWhile_cons, hc]
    · rw [if_neg he]
      rw [List.reverse_append]
      simp [List.dropWhile_cons, hc]

theorem trimChars_trimChars (l : List Char) : trimChars (trimChars l) = trimChars l := by
  have hmm : (l.dropWhile Char.isWhitespace).dropWhile Char.isWhitespace
      = l.dropWhile Char.isWhitespace := dropWhile_self _ l
  unfold trimChars
  rw [dropWhile_reverse_of_fixed hmm, List.reverse_reverse, dropWhile_self]

theorem mem_trimChars {c : Char} {l : List Char} (h : c ∈ trimChars l) : c ∈ l := by
  unfold trimChars at h
  rw [List.mem_reverse] at h
  have h1 : c ∈ (l.dropWhile Char.isWhitespace).reverse :=
    (List.dropWhile_sublist _).subset h
  rw [List.mem_reverse] at h1
  exact (List.dropWhile_sublist _).subset h1

theorem trimChars_cons_space (l : List Char) : trimChars (' ' :: l) = trimChars l := by
  unfold trimChars
  rw [List.dropWhile_cons_of_pos (by decide)]

theorem parseAccept_cons_space (l : List Char) :
    parseAccept (' ' :: l) = parseAccept l := by
  obtain ⟨q, qs, hr⟩ := List.exists_cons_of_ne_nil (splitOnComma_ne_nil l)
  simp only [parseAccept]
  rw [splitOnComma_cons ' ' l hr, if_neg (by decide : ¬ (' ' = ',')), hr]
  simp [trimChars_cons_space]

theorem splitOnComma_append_comma {v : List Char} (hc : ',' ∉ v) (l : List Char) :
    splitOnComma (v ++ ',' :: l) = v :: splitOnComma l := by
  induction v with
  | nil =>
    obtain ⟨q, qs, hr⟩ := List.exists_cons_of_ne_nil (splitOnComma_ne_nil l)
    rw [List.nil_append, splitOnComma_cons ',' l hr, if_pos rfl, hr]
  | cons c v ih =>
    have hcc : ¬ c = ',' := fun h => hc (by simp [h])
    have hv : splitOnComma (v ++ ',' :: l) = v :: splitOnComma l :=
      ih (fun hm => hc (List.mem_cons_of_mem c hm))
    rw [List.cons_append, splitOnComma_cons c (v ++ ',' :: l) hv, if_neg hcc]

theorem splitOnComma_no_comma {v : List Char} (hc : ',' ∉ v) :
    splitOnComma v = [v] := by
  induction v with
  | nil => rfl
  | cons c v ih =>
    have hcc : ¬ c = ',' := fun h => hc (by simp [h])
    have hv : splitOnComma v = [v] := ih (fun hm => hc (List.mem_cons_of_mem c hm))
    rw [splitOnComma_cons c v hv, if_neg hcc]

theorem parseAccept_append_comma {v : List Char} (hv : trimChars v = v)
    (hv2 : v ≠ []) (hc : ',' ∉ v) (l : List Char) :
    parseAccept (v ++ ',' :: l) = v :: parseAccept l := by
  simp only [parseAccept]
  rw [splitOnComma_append_comma hc]
  simp [hv, hv2]

theorem parseAccept_no_comma {v : List Char} (hv : trimChars v = v)
    (hv2 : v ≠ []) (hc : ',' ∉ v) : parseAccept v = [v] := by
  simp only [parseAccept]
  rw [splitOnComma_no_comma hc]
  simp [hv, hv2]

theorem parseAccept_joinCommaSpace {vals : List (List Char)}
    (h : ∀ v ∈ vals, trimChars v = v ∧ v ≠ [] ∧ ',' ∉ v) :
    parseAccept (joinCommaSpace vals) = vals := by
  induction vals with
  | nil => rfl
  | cons v rest ih =>
    have hv := h v (List.mem_cons_self v rest)
    cases rest with
    | nil =>
      simp only [joinCommaSpace]
      exact parseAccept_no_comma hv.1 hv.2.1 hv.2.2
    | cons w rest2 =>
      simp only [joinCommaSpace]
      rw [parseAccept_append_comma hv.1 hv.2.1 hv.2.2]
      rw [parseAccept_cons_space]
      rw [ih (fun u hu => h u (List.mem_cons_of_mem v hu))]

theorem parseAccept_elem {a v : List Char} (hv : v ∈ parseAccept a) :
    trimChars v = v ∧ v ≠ [] ∧ ',' ∉ v := by
  simp only [parseAccept, List.mem_filter, List.mem_map, decide_eq_true_eq] at hv
  obtain ⟨⟨p, hp, hpv⟩, hne⟩ := hv
  subst hpv
  exact ⟨trimChars_trimChars p, hne,
    fun hm => not_comma_mem_splitOnComma hp (mem_trimChars hm)⟩

/-! ## Lemmas about normalizeAccept -/

theorem requiredJson_wf : trimChars requiredJson = requiredJson
    ∧ requiredJson ≠ [] ∧ ',' ∉ requiredJson := by decide

theorem requiredStream_wf : trimChars requiredStream = requiredStream
    ∧ requiredStream ≠ [] ∧ ',' ∉ requiredStream := by decide

theorem lowerChars_requiredJson : lowerChars requiredJson = requiredJson := by decide

theorem lowerChars_requiredStream : lowerChars requiredStream = requiredStream := by decide

theorem normalizeAccept_of_present {a : List Char}
    (h1 : requiredJson ∈ (parseAccept a).map lowerChars)
    (h2 : requiredStream ∈ (parseAccept a).map lowerChars) :
    normalizeAccept a = a := by
  unfold normalizeAccept
  rw [if_pos ⟨h1, h2⟩]

theorem parseAccept_normalizeAccept (a : List Char) :
    parseAccept (normalizeAccept a)
      = parseAccept a
        ++ (if requiredJson ∈ (parseAccept a).map lowerChars then []
            else [requiredJson])
        ++ (if requiredStream ∈ (parseAccept a).map lowerChars then []
            else [requiredStream]) := by
  have helems : ∀ v ∈ parseAccept a
        ++ (if requiredJson ∈ (parseAccept a).map lowerChars then []
            else [requiredJson])
        ++ (if requiredStream ∈ (parseAccept a).map lowerChars then []
            else [requiredStream]),
      trimChars v = v ∧ v ≠ [] ∧ ',' ∉ v := by
    intro v hv
    rcases List.mem_append.mp hv with hv | hv
    · rcases List.mem_append.mp hv with hv | hv
      · exact parseAccept_elem hv
      · split at hv
        · simp at hv
        · rw [List.mem_singleton] at hv
          subst hv
          exact requiredJson_wf
    · split at hv
      · simp at hv
      · rw [List.mem_singleton] at hv
        subst hv
        exact requiredStream_wf
  by_cases hb : requiredJson ∈ (parseAccept a).map lowerChars
      ∧ requiredStream ∈ (parseAccept a).map lowerChars
  · rw [normalizeAccept_of_present hb.1 hb.2, if_pos hb.1, if_pos hb.2]
    simp
  · unfold normalizeAccept
    rw [if_neg hb]
    exact parseAccept_joinCommaSpace helems

theorem normalizeAccept_contains (a : List Char) :
    requiredJson ∈ (parseAccept (normalizeAccept a)).map lowerChars
    ∧ requiredStream ∈ (parseAccept (normalizeAccept a)).map lowerChars := by
  rw [parseAccept_normalizeAccept]
  constructor
  · by_cases h1 : requiredJson ∈ (parseAccept a).map lowerChars
    · simp only [List.map_append, List.mem_append]
      exact Or.inl (Or.inl h1)
    · rw [if_neg h1]
      simp only [List.map_append, List.mem_append, List.map_cons, List.map_nil,
        List.mem_singleton]
      exact Or.inl (Or.inr lowerChars_requiredJson.symm)
  · by_cases h2 : requiredStream ∈ (parseAccept a).map lowerChars
    · simp only [List.map_append, List.mem_append]
      exact Or.inl (Or.inl h2)
    · rw [if_neg h2]
      simp only [List.map_append, List.mem_append, List.map_cons, List.map_nil,
        List.mem_singleton]
      exact Or.inr lowerChars_requiredStream.symm

theorem normalizeAccept_idem (a : List Char) :
    normalizeAccept (normalizeAccept a) = normalizeAccept a :=
  normalizeAccept_of_present (normalizeAccept_contains a).1
    (normalizeAccept_contains a).2

theorem forceAccept_dispatch_mcp {req : HttpRequest} (hh : req.isHttp = true)
    (hp : req.path = "/mcp") :
    ForceAcceptHeaderMiddleware.dispatch req
      = { req with accept := normalizeAccept req.accept } := by
  unfold ForceAcceptHeaderMiddleware.dispatch
  rw [if_pos ⟨hh, hp⟩]

/-! ## Lemmas about the credential verifier and the auth gate -/

theorem verify_api_key_iff {h : List Char → List Char} (hinj : Function.Injective h)
    {secret : List Char} (hs : secret ≠ []) (candidate : List Char) :
    verify_api_key h secret candidate = true ↔ candidate = secret := by
  unfold verify_api_key
  by_cases hc : candidate = []
  · rw [if_pos hc]
    subst hc
    constructor
    · intro hf
      exact Bool.noConfusion hf
    · intro he
      exact absurd he.symm hs
  · rw [if_neg hc]
    simp only [decide_eq_true_eq]
    exact ⟨fun he => hinj he, fun he => by rw [he]⟩

theorem apiKeyAllows_iff {h : List Char → List Char} (hinj : Function.Injective h)
    {secret : List Char} (hs : secret ≠ []) (xk : Option (List Char)) :
    AuthMiddleware.apiKeyAllows h secret xk = true ↔ xk = some secret := by
  cases xk with
  | none => simp [AuthMiddleware.apiKeyAllows]
  | some k =>
    simp only [AuthMiddleware.apiKeyAllows, Bool.and_eq_true, bne_iff_ne, ne_eq,
      Option.some.injEq]
    rw [verify_api_key_iff hinj hs]
    constructor
    · exact fun hx => hx.2
    · intro hk
      subst hk
      exact ⟨hs, rfl⟩

theorem auth_dispatch_protected {h : List Char → List Char} {secret : List Char}
    {req : AuthRequest} (hh : req.isHttp = true)
    (hp : req.path = "/mcp" ∨ req.path = "/sse") :
    AuthMiddleware.dispatch h secret req
      = (if AuthMiddleware.bearerAllows h secret req.authorization then .allow
        else if AuthMiddleware.apiKeyAllows h secret req.xApiKey then .allow
        else .reject401) := by
  have hh2 : ¬ req.isHttp = false := by rw [hh]; simp
  have hop : ¬ (req.path = "/health" ∨ req.path = "/") := by
    rcases hp with hp | hp <;> rw [hp] <;> decide
  unfold AuthMiddleware.dispatch
  rw [if_neg hh2, if_neg hop, if_neg (not_not_intro hp)]

/-! ## Lemmas about generate -/

theorem badMaxTokens_eq_true_iff {mt : Option Int} :
    badMaxTokens mt = true ↔ ∃ n, mt = some n ∧ n ≤ 0 := by
  cases mt <;> simp [badMaxTokens]

/-! ## Claims -/

/-- C1: the spec claims that the correct shared secret presented in any of
four carriers — bearer header, basic header, X-API-Key header, or the
api_key query parameter — admits the request, and in particular that a
request whose only credential is the query parameter, or a Basic
authorization header, is admitted. The code contradicts this (and its own
test suite, test_middleware.py): `AuthMiddleware.dispatch` never reads the
query string and never decodes a basic-scheme header, so both such
requests are rejected with 401. The first conjunct shows the
query-parameter-only request is rejected for every digest, secret and
query string; the second evaluates the gate on the exact Basic header the
repository's test sends. -/
theorem auth_query_and_basic_carriers_rejected :
    (∀ (h : List Char → List Char) (secret q : List Char),
      AuthMiddleware.dispatch h secret
        { isHttp := true, path := "/mcp", authorization := none,
          xApiKey := none, queryString := q } = .reject401)
    ∧ AuthMiddleware.dispatch (fun s => s) "test-mcp-key-123".data
        { isHttp := true, path := "/mcp",
          authorization := some "Basic dGVzdC1tY3Ata2V5LTEyMzo=".data,
          xApiKey := none, queryString := [] } = .reject401 :=
  ⟨fun _ _ _ => rfl, by decide⟩

/-- C2 counterexample: the claim says that when the first-found candidate
(the bearer header) is wrong and a later carrier (the X-API-Key header)
holds the correct secret, the request is rejected. On the code the same
request is admitted: a failed bearer verification falls through to the
API-key header. -/
theorem auth_first_candidate_wins_counterexample :
    AuthMiddleware.dispatch (fun s => s) "k".data
      { isHttp := true, path := "/mcp",
        authorization := some "Bearer wrong".data,
        xApiKey := some "k".data, queryString := [] } = .allow := by decide

/-- C2 amended: on a protected path the gate checks the bearer header
first and admits immediately when it verifies, but a first candidate that
fails verification does not reject the request: the gate goes on to the
API-key header and admits exactly when either carrier's candidate
verifies (any-carrier-wins, not first-candidate-wins). -/
theorem auth_allows_any_verifying_carrier (h : List Char → List Char)
    (secret : List Char) (req : AuthRequest) (hh : req.isHttp = true)
    (hp : req.path = "/mcp" ∨ req.path = "/sse") :
    AuthMiddleware.dispatch h secret req = .allow
      ↔ (AuthMiddleware.bearerAllows h secret req.authorization = true
        ∨ AuthMiddleware.apiKeyAllows h secret req.xApiKey = true) := by
  rw [auth_dispatch_protected hh hp]
  by_cases hb : AuthMiddleware.bearerAllows h secret req.authorization = true
  · rw [if_pos hb]
    simp [hb]
  · rw [if_neg hb]
    by_cases hk : AuthMiddleware.apiKeyAllows h secret req.xApiKey = true
    · rw [if_pos hk]
      simp [hk]
    · rw [if_neg hk]
      simp [hb, hk]

theorem auth_allows_any_verifying_carrier_witness :
    (AuthRequest.mk true "/mcp" (some "Bearer k".data) none []).isHttp = true
    ∧ ((AuthRequest.mk true "/mcp" (some "Bearer k".data) none []).path = "/mcp"
      ∨ (AuthRequest.mk true "/mcp" (some "Bearer k".data) none []).path = "/sse")
    ∧ (AuthMiddleware.dispatch (fun s => s) "k".data
          (AuthRequest.mk true "/mcp" (some "Bearer k".data) none []) = .allow
        ↔ (AuthMiddleware.bearerAllows (fun s => s) "k".data
            (some "Bearer k".data) = true
          ∨ AuthMiddleware.apiKeyAllows (fun s => s) "k".data none = true)) :=
  ⟨rfl, Or.inl rfl,
    auth_allows_any_verifying_carrier (fun s => s) "k".data
      (AuthRequest.mk true "/mcp" (some "Bearer k".data) none []) rfl (Or.inl rfl)⟩

/-- C5: with a collision-free digest and a non-empty configured secret
(the server always has one: a falsy environment value is replaced by a
random token at startup), `verify_api_key` returns true exactly for the
candidate equal to the secret, and an empty candidate is rejected for
every digest function whatsoever — the digest is never consulted. -/
theorem verify_api_key_correct (h : List Char → List Char)
    (hinj : Function.Injective h) (secret : List Char) (hs : secret ≠ []) :
    (∀ candidate, verify_api_key h secret candidate = true ↔ candidate = secret)
    ∧ ∀ g : List Char → List Char, verify_api_key g secret [] = false := by
  refine ⟨fun c => verify_api_key_iff hinj hs c, fun g => ?_⟩
  unfold verify_api_key
  rw [if_pos rfl]

theorem verify_api_key_correct_witness :
    Function.Injective (fun s : List Char => s)
    ∧ ("k".data ≠ ([] : List Char))
    ∧ verify_api_key (fun s : List Char => s) "k".data "k".data = true :=
  ⟨fun a b hab => hab, by decide,
    ((verify_api_key_correct (fun s : List Char => s) (fun a b hab => hab)
      "k".data (by decide)).1 "k".data).mpr rfl⟩

/-- C10: the bearer carrier is recognised only behind the exact,
case-sensitive scheme text `Bearer` followed by one space. For any
authorization header value that does not start with that prefix (for
example a lower-case `bearer <key>`), on every request to either
protected endpoint (`/mcp` or `/sse`), no bearer candidate is extracted,
and the request is admitted exactly when the X-API-Key header carries
the correct secret; otherwise it is rejected with 401 (the decision is
binary). -/
theorem auth_bearer_scheme_case_sensitive (h : List Char → List Char)
    (hinj : Function.Injective h) (secret : List Char) (hs : secret ≠ [])
    (path : String) (hpath : path = "/mcp" ∨ path = "/sse")
    (a : List Char) (ha : bearerScheme.isPrefixOf a = false)
    (xk : Option (List Char)) (q : List Char) :
    AuthMiddleware.dispatch h secret
      { isHttp := true, path := path, authorization := some a,
        xApiKey := xk, queryString := q } = .allow ↔ xk = some secret := by
  have hb : AuthMiddleware.bearerAllows h secret (some a) = false := by
    simp [AuthMiddleware.bearerAllows, ha]
  rw [auth_dispatch_protected rfl hpath]
  show (if AuthMiddleware.bearerAllows h secret (some a) = true then AuthDecision.allow
      else if AuthMiddleware.apiKeyAllows h secret xk = true then AuthDecision.allow
      else AuthDecision.reject401) = AuthDecision.allow ↔ xk = some secret
  rw [if_neg (by rw [hb]; simp)]
  by_cases hk : AuthMiddleware.apiKeyAllows h secret xk = true
  · rw [if_pos hk]
    exact ⟨fun _ => (apiKeyAllows_iff hinj hs xk).mp hk, fun _ => rfl⟩
  · rw [if_neg hk]
    constructor
    · intro hcontra
      exact AuthDecision.noConfusion hcontra
    · intro hxk
      exact absurd ((apiKeyAllows_iff hinj hs xk).mpr hxk) hk

theorem auth_bearer_scheme_case_sensitive_witness :
    Function.Injective (fun s : List Char => s)
    ∧ ("k".data ≠ ([] : List Char))
    ∧ (("/sse" : String) = "/mcp" ∨ ("/sse" : String) = "/sse")
    ∧ bearerScheme.isPrefixOf "bearer k".data = false
    ∧ (AuthMiddleware.dispatch (fun s : List Char => s) "k".data
        { isHttp := true, path := "/sse", authorization := some "bearer k".data,
          xApiKey := some "k".data, queryString := [] } = .allow
      ↔ some "k".data = some "k".data) :=
  ⟨fun a b hab => hab, by decide, Or.inr rfl, by decide,
    auth_bearer_scheme_case_sensitive (fun s : List Char => s)
      (fun a b hab => hab) "k".data (by decide) "/sse" (Or.inr rfl)
      "bearer k".data (by decide) (some "k".data) []⟩

/-- C3: `generate` is a total function into `GenerationResult` (the
embedding of "every dispatch produces exactly one result and never raises
past its boundary"), and whenever the prompt is empty after trimming, the
temperature is outside [0, 2], a present max_tokens is not positive, the
provider faults, or the provider returns zero choices, the result carries
`error = true`, finish reason `"error"`, the requested model echoed, and
an error description in the text field. -/
theorem generate_error_result_shape (prompt model : List Char) (temperature : ℚ)
    (max_tokens : Option Int) (provider : ProviderResult)
    (hbad : trimChars prompt = [] ∨ temperature < 0 ∨ 2 < temperature
      ∨ (∃ n, max_tokens = some n ∧ n ≤ 0)
      ∨ (∃ msg, provider = .fault msg) ∨ provider = .ok []) :
    (generate prompt model temperature max_tokens provider).error = true
    ∧ (generate prompt model temperature max_tokens provider).finish_reason
        = "error".data
    ∧ (generate prompt model temperature max_tokens provider).model = model
    ∧ ∃ msg, (generate prompt model temperature max_tokens provider).text
        = "Error: ".data ++ msg := by
  have hmain : ∃ msg, generate prompt model temperature max_tokens provider
      = errorResult model msg := by
    unfold generate
    by_cases h1 : trimChars prompt = []
    · rw [if_pos h1]
      exact ⟨_, rfl⟩
    rw [if_neg h1]
    by_cases h2 : temperature < 0 ∨ 2 < temperature
    · rw [if_pos h2]
      exact ⟨_, rfl⟩
    rw [if_neg h2]
    by_cases h3 : badMaxTokens max_tokens = true
    · rw [if_pos h3]
      exact ⟨_, rfl⟩
    rw [if_neg h3]
    cases provider with
    | fault msg => exact ⟨msg, rfl⟩
    | ok choices =>
      cases choices with
      | nil => exact ⟨_, rfl⟩
      | cons c cs =>
        exfalso
        rcases hbad with hb | hb | hb | hb | ⟨m, hm⟩ | hb
        · exact h1 hb
        · exact h2 (Or.inl hb)
        · exact h2 (Or.inr hb)
        · exact h3 (badMaxTokens_eq_true_iff.mpr hb)
        · simp at hm
        · simp at hb
  obtain ⟨msg, hm⟩ := hmain
  rw [hm]
  exact ⟨rfl, rfl, rfl, msg, rfl⟩

theorem generate_error_result_shape_witness :
    (trimChars "".data = [] ∨ (0 : ℚ) < 0 ∨ 2 < (0 : ℚ)
      ∨ (∃ n, (none : Option Int) = some n ∧ n ≤ 0)
      ∨ (∃ msg, ProviderResult.ok [] = .fault msg)
      ∨ ProviderResult.ok ([] : List Choice) = .ok [])
    ∧ (generate "".data "m".data 0 none (.ok [])).error = true :=
  ⟨Or.inl rfl,
    (generate_error_result_shape "".data "m".data 0 none (.ok []) (Or.inl rfl)).1⟩

/-- C4: on a valid call where the provider returns at least one choice,
the result's text is the first choice's content trimmed (empty string if
the provider returned none), the finish reason is the provider's or
`"stop"` when the provider supplies none (Python `or`, so an absent or
falsy finish reason becomes `"stop"`), the requested model is echoed, and
the result is not an error; a response with zero choices is a failure. -/
theorem generate_success_result_shape (prompt model : List Char)
    (temperature : ℚ) (max_tokens : Option Int) (choice : Choice)
    (rest : List Choice) (h1 : trimChars prompt ≠ []) (h2 : 0 ≤ temperature)
    (h3 : temperature ≤ 2) (h4 : badMaxTokens max_tokens = false) :
    generate prompt model temperature max_tokens (.ok (choice :: rest))
      = { text := trimChars (pyOr choice.content [])
          model := model
          finish_reason := pyOr choice.finish_reason "stop".data
          error := false }
    ∧ (generate prompt model temperature max_tokens (.ok [])).error = true := by
  have ht : ¬ (temperature < 0 ∨ 2 < temperature) := by
    push_neg
    exact ⟨h2, h3⟩
  have h4a : ¬ badMaxTokens max_tokens = true := by
    rw [h4]
    simp
  constructor
  · unfold generate
    rw [if_neg h1, if_neg ht, if_neg h4a]
  · unfold generate
    rw [if_neg h1, if_neg ht, if_neg h4a]
    rfl

theorem generate_success_result_shape_witness :
    trimChars "hi".data ≠ [] ∧ (0 : ℚ) ≤ 0 ∧ (0 : ℚ) ≤ 2
    ∧ badMaxTokens none = false
    ∧ generate "hi".data "m".data 0 none
        (.ok [{ content := some "  hello  ".data, finish_reason := some "stop".data }])
      = { text := "hello".data, model := "m".data,
          finish_reason := "stop".data, error := false } := by
  refine ⟨by decide, by norm_num, by norm_num, rfl, ?_⟩
  have h := (generate_success_result_shape "hi".data "m".data 0 none
    { content := some "  hello  ".data, finish_reason := some "stop".data } []
    (by decide) (by norm_num) (by norm_num) rfl).1
  rw [h]
  decide

/-- C6: on every HTTP request to the relay endpoint, the normalized Accept
header contains both required media types under case-insensitive
membership; the parsed entry list of the result is the client's entries in
their original order with only the missing required types appended at the
end; and when both are already present the whole request — header value
included — is left byte-for-byte unchanged. -/
theorem forceAccept_normalizes_mcp_requests (req : HttpRequest)
    (hh : req.isHttp = true) (hp : req.path = "/mcp") :
    (requiredJson
        ∈ (parseAccept (ForceAcceptHeaderMiddleware.dispatch req).accept).map lowerChars
      ∧ requiredStream
        ∈ (parseAccept (ForceAcceptHeaderMiddleware.dispatch req).accept).map lowerChars)
    ∧ parseAccept (ForceAcceptHeaderMiddleware.dispatch req).accept
        = parseAccept req.accept
          ++ (if requiredJson ∈ (parseAccept req.accept).map lowerChars then []
              else [requiredJson])
          ++ (if requiredStream ∈ (parseAccept req.accept).map lowerChars then []
              else [requiredStream])
    ∧ ((requiredJson ∈ (parseAccept req.accept).map lowerChars
        ∧ requiredStream ∈ (parseAccept req.accept).map lowerChars)
        → ForceAcceptHeaderMiddleware.dispatch req = req) := by
  have hd := forceAccept_dispatch_mcp hh hp
  refine ⟨?_, ?_, ?_⟩
  · rw [hd]
    exact normalizeAccept_contains req.accept
  · rw [hd]
    exact parseAccept_normalizeAccept req.accept
  · intro hb
    rw [hd, normalizeAccept_of_present hb.1 hb.2]

theorem forceAccept_normalizes_mcp_requests_witness :
    (HttpRequest.mk true "/mcp" "application/json".data []).isHttp = true
    ∧ (HttpRequest.mk true "/mcp" "application/json".data []).path = "/mcp"
    ∧ requiredJson
        ∈ (parseAccept (ForceAcceptHeaderMiddleware.dispatch
            (HttpRequest.mk true "/mcp" "application/json".data [])).accept).map
          lowerChars :=
  ⟨rfl, rfl,
    (forceAccept_normalizes_mcp_requests
      (HttpRequest.mk true "/mcp" "application/json".data []) rfl rfl).1.1⟩

/-- C7: header normalization is idempotent, both as the pure header
transform (`normalize(normalize(h)) = normalize(h)` for every header
value) and at the middleware level: applying the middleware to an
already-dispatched request changes nothing. -/
theorem forceAccept_idempotent :
    (∀ a : List Char, normalizeAccept (normalizeAccept a) = normalizeAccept a)
    ∧ ∀ req : HttpRequest,
      ForceAcceptHeaderMiddleware.dispatch (ForceAcceptHeaderMiddleware.dispatch req)
        = ForceAcceptHeaderMiddleware.dispatch req := by
  refine ⟨normalizeAccept_idem, fun req => ?_⟩
  by_cases hb : req.isHttp = true ∧ req.path = "/mcp"
  · have h1 := forceAccept_dispatch_mcp hb.1 hb.2
    have h2 : ForceAcceptHeaderMiddleware.dispatch
        { req with accept := normalizeAccept req.accept }
        = { req with accept := normalizeAccept (normalizeAccept req.accept) } :=
      forceAccept_dispatch_mcp hb.1 hb.2
    rw [h1, h2, normalizeAccept_idem]
  · have hd : ForceAcceptHeaderMiddleware.dispatch req = req := by
      unfold ForceAcceptHeaderMiddleware.dispatch
      rw [if_neg hb]
    rw [hd, hd]

/-- C8: a request whose path is not the relay endpoint passes through the
Accept-header middleware completely unmodified — the returned request is
the input request, every field included. -/
theorem forceAccept_frame_other_paths (req : HttpRequest)
    (hp : req.path ≠ "/mcp") :
    ForceAcceptHeaderMiddleware.dispatch req = req := by
  unfold ForceAcceptHeaderMiddleware.dispatch
  rw [if_neg (fun hb => hp hb.2)]

theorem forceAccept_frame_other_paths_witness :
    ("/other" : String) ≠ "/mcp"
    ∧ ForceAcceptHeaderMiddleware.dispatch
        (HttpRequest.mk true "/other" "text/html".data [])
      = HttpRequest.mk true "/other" "text/html".data [] :=
  ⟨by decide,
    forceAccept_frame_other_paths (HttpRequest.mk true "/other" "text/html".data [])
      (by decide)⟩

/-- C9: the outermost error translator maps a closed-connection fault
raised by the inner chain to a 499 plaintext response "Client
disconnected" logged at informational level, maps any other uncaught
exception to a 500 JSON response carrying an error marker and the fault's
description logged at error level, and passes successful responses
through; being a total function, it lets no exception propagate to the
transport layer. -/
theorem error_translator_mapping :
    (ErrorHandlingMiddleware.dispatch .closedResourceError
        = ({ status := 499, body := .text "Client disconnected".data }, some .info))
    ∧ (∀ msg, ErrorHandlingMiddleware.dispatch (.exc msg)
        = ({ status := 500, body := .jsonError "Internal server error".data msg },
          some .error))
    ∧ (∀ resp, ErrorHandlingMiddleware.dispatch (.ok resp) = (resp, none)) :=
  ⟨rfl, fun _ => rfl, fun _ => rfl⟩

end MCPRelay
